import Mathlib

/-
Verification development for the rrna_norm 16S count-table normaliser
(src/rrna_norm.py). The Python source is shallowly embedded below:

* strings are lists of characters (List Char);
* Python floats are modelled as exact rationals (Rat) — all quantities in
  the source are read from decimal text and combined by +, *, /, so the
  algebraic statements proved here hold of the exact arithmetic (and hold
  of IEEE arithmetic up to rounding, which the spec itself allows via its
  within-tolerance phrasing); division by zero follows the Rat convention
  x / 0 = 0 and stands in for the NaN that pandas produces there;
* Python dicts keep insertion order, so they are embedded as association
  lists with the same insert/overwrite operations the source performs;
* Python re.search over the seven fixed rank patterns is embedded by a
  direct executable model of leftmost search with greedy backtracking;
  see tryMatch for the (zero-backtracking) normal form this collapses to
  for these particular patterns;
* fallible code (RuntimeError, ValueError/IndexError, KeyError) is
  embedded with Except / Option.
-/

namespace RrnaNorm

/-! ## Character classes of the regex patterns

The seven rank patterns are of the form  X__\[?([\w\s]+)(?=\]?;)  (with the
species pattern ending in the vacuous lookahead (?=\]?) instead).  The ASCII
fragment of the Python classes is modelled: \w is [A-Za-z0-9_], \s is the six
ASCII whitespace characters.  The same set serves str.rstrip. -/

def isSpaceChar (c : Char) : Bool :=
  c = ' ' || c = '\t' || c = '\n' || c = '\x0d' || c = '\x0b' || c = '\x0c'

def isWordChar (c : Char) : Bool :=
  c.isAlphanum || c = '_'

def isWordSpace (c : Char) : Bool :=
  isWordChar c || isSpaceChar c

/-- Python str.rstrip(): drop trailing whitespace. -/
def rstripL (l : List Char) : List Char :=
  (l.reverse.dropWhile isSpaceChar).reverse

/-- The lookahead (?=\]?;): an optional closing bracket then a semicolon.
With backtracking, it succeeds exactly when the text ahead starts with a
semicolon, or with a bracket followed by a semicolon. -/
def lookaheadSemi (s : List Char) : Bool :=
  match s with
  | ';' :: _ => true
  | ']' :: ';' :: _ => true
  | _ => false

/-- One attempt of the pattern  t__\[?([\w\s]+)(?=\]?;)  anchored at the head
of s (for the species pattern needSemi is false and the lookahead is vacuous).
Returns the capture group on success.

The greedy group collapses to the maximal [\w\s] run: a shorter, backtracked
group would have to be followed by a semicolon or bracket, but every earlier
stopping point is a [\w\s] character, so only the full run can satisfy the
lookahead.  Likewise \[? can be committed: if a bracket is present and skipped
the group would start on the bracket, which is not a [\w\s] character. -/
def tryMatch (t : Char) (needSemi : Bool) (s : List Char) : Option (List Char) :=
  match s with
  | c1 :: c2 :: c3 :: rest =>
    if c1 = t ∧ c2 = '_' ∧ c3 = '_' then
      let body := match rest with
        | '[' :: r => r
        | r => r
      let run := body.takeWhile isWordSpace
      let after := body.dropWhile isWordSpace
      if run.isEmpty then none
      else if needSemi ∧ ¬ lookaheadSemi after then none
      else some run
    else none
  | _ => none

/-- re.search: try the pattern at each start position, leftmost first. -/
def searchTag (t : Char) (needSemi : Bool) : List Char → Option (List Char)
  | [] => none
  | c :: cs =>
    match tryMatch t needSemi (c :: cs) with
    | some g => some g
    | none => searchTag t needSemi cs

/-- The seven rank rules of _generate_taxa_reg_exs, in kingdom-to-species
order: the tag character and whether the terminating-semicolon lookahead is
required (it is for all but the species pattern). -/
def taxaRegExs : List (Char × Bool) :=
  [('k', true), ('p', true), ('c', true), ('o', true), ('f', true), ('g', true), ('s', false)]

def defaultRule : Char × Bool := ('k', true)

def searchRule (r : Char × Bool) (s : List Char) : Option (List Char) :=
  searchTag r.1 r.2 s

/-- The shared extraction loop of _curate_db and _curate_input: apply the rank
rules in order against the whole annotation, appending each capture group (the
input loop additionally rstrips it), and stop at the first rule with no
match. -/
def parseLoop (strip : Bool) : List (Char × Bool) → List Char → List (List Char)
  | [], _ => []
  | r :: rest, s =>
    match searchRule r s with
    | some g => (if strip then rstripL g else g) :: parseLoop strip rest s
    | none => []

/-- The rank-label sequence of an annotation; strip selects the _curate_input
variant (labels rstripped) over the _curate_db variant (labels raw). -/
def parseKeyItems (strip : Bool) (s : List Char) : List (List Char) :=
  parseLoop strip taxaRegExs s

/-- Python ';'.join. -/
def joinKey : List (List Char) → List Char
  | [] => []
  | [x] => x
  | x :: y :: rest => x ++ ';' :: joinKey (y :: rest)

/-! ## Association lists standing for Python dicts -/

def alookup {α : Type} (d : List (List Char × α)) (k : List Char) : Option α :=
  match d with
  | [] => none
  | (k1, v) :: rest => if k1 = k then some v else alookup rest k

/-- dict assignment d[k] = v: overwrite in place if present (key order kept),
else append. -/
def dictInsert (d : List (List Char × Rat)) (k : List Char) (v : Rat) :
    List (List Char × Rat) :=
  if (alookup d k).isSome then
    d.map (fun p => if p.1 = k then (p.1, v) else p)
  else d ++ [(k, v)]

/-! ## Reference-db curation (_curate_db) -/

/-- Python str.split on a single separator character. -/
def splitTab : List Char → List (List Char)
  | [] => [[]]
  | c :: rest =>
    if c = '\t' then [] :: splitTab rest
    else
      match splitTab rest with
      | f :: fs => (c :: f) :: fs
      | [] => [[c]]

/-- The value of a digit character, ord(c) - ord(zero). -/
def digitVal (c : Char) : Nat := c.toNat - 48

def digitsVal (l : List Char) : Nat :=
  l.foldl (fun a c => a * 10 + digitVal c) 0

/-- The unsigned part of a decimal literal: digits, optionally a point and
fraction digits. -/
def parseFloatCore (u : List Char) (sign : Rat) : Option Rat :=
  let ip := u.takeWhile Char.isDigit
  let rest := u.dropWhile Char.isDigit
  if rest = [] then
    if ip = [] then none else some (sign * (digitsVal ip : Rat))
  else
    if rest.head? = some '.' ∧ rest.tail.all Char.isDigit ∧ ¬ (ip = [] ∧ rest.tail = []) then
      some (sign * ((digitsVal ip : Rat) +
        (digitsVal rest.tail : Rat) / ((10 : Rat) ^ rest.tail.length)))
    else none

/-- Python float() on the plain decimal literals the reference db carries
(optional sign, digits, optional point and fraction digits).  Exponents,
inf/nan, underscores and surrounding whitespace are outside the fragment the
repository exercises and are mapped to none (the fatal ValueError path). -/
def parseFloat (s : List Char) : Option Rat :=
  if s.head? = some '-' then parseFloatCore s.tail (-1)
  else if s.head? = some '+' then parseFloatCore s.tail 1
  else parseFloatCore s 1

/-- line.split(tab)[:2] giving the raw taxonomy string and the parsed
copy-number; none models the IndexError (missing field) and ValueError
(unparseable float) abort paths. -/
def recordOfLine (l : List Char) : Option (List Char × Rat) :=
  match (splitTab l).take 2 with
  | [raw, v] => (parseFloat v).map (fun q => (raw, q))
  | _ => none

/-- The first pass of _curate_db: taxa_str_to_correction_factor, a dict keyed
by the raw taxonomy string — a later record with an identical raw string
overwrites the value. -/
def buildRawDictGo : List (List Char × Rat) → List (List Char × Rat) → List (List Char × Rat)
  | d, [] => d
  | d, r :: rs => buildRawDictGo (dictInsert d r.1 r.2) rs

/-- The canonical key of a raw db taxonomy string: joined labels, none when no
rank matched (the record is discarded). -/
def canonKeyDb (raw : List Char) : Option (List Char) :=
  match parseKeyItems false raw with
  | [] => none
  | items => some (joinKey items)

/-- already_present_dict[k] += 1 on a defaultdict(lambda : 1): the first bump
stores 1 + 1 = 2. -/
def bumpDup (d : List (List Char × Nat)) (k : List Char) : List (List Char × Nat) :=
  if (alookup d k).isSome then
    d.map (fun p => if p.1 = k then (p.1, p.2 + 1) else p)
  else d ++ [(k, 2)]

structure DbResult where
  table : List (List Char × Rat)
  dups : List (List Char × Nat)
  countAdded : Nat

/-- The body of the curation loop once the canonical key is known: first
occurrence inserts, a repeat only bumps the duplicate counter. -/
def dbStepKey (st : DbResult) (k : List Char) (v : Rat) : DbResult :=
  if (alookup st.table k).isSome then
    { st with dups := bumpDup st.dups k }
  else
    { st with table := st.table ++ [(k, v)], countAdded := st.countAdded + 1 }

/-- One iteration of the curation loop over the raw-string dict. -/
def dbStep (st : DbResult) (rec : List Char × Rat) : DbResult :=
  match canonKeyDb rec.1 with
  | none => st
  | some k => dbStepKey st k rec.2

def curateDbGo : DbResult → List (List Char × Rat) → DbResult
  | st, [] => st
  | st, r :: rs => curateDbGo (dbStep st r) rs

/-- _curate_db from the point where records (raw string, value) exist: build
the raw-string dict, then canonicalise its keys in insertion order with
first-seen-wins on the canonical key. -/
def curate_db_records (recs : List (List Char × Rat)) : DbResult :=
  curateDbGo (DbResult.mk [] [] 0) (buildRawDictGo [] recs)

/-- _curate_db from raw lines: keep lines whose first character is the kingdom
marker, rstrip them, split out the first two fields, parse the value; any
malformed kept record aborts the curation (none). -/
def curate_db_lines (lines : List (List Char)) : Option DbResult :=
  ((((lines.filter (fun l => l.head? == some 'k')).map rstripL).mapM recordOfLine).map
    curate_db_records)

/-- The value of the first record whose canonical key is k — the reference
point for the first-seen-wins policy. -/
def firstValueFor (recs : List (List Char × Rat)) (k : List Char) : Option Rat :=
  match recs with
  | [] => none
  | r :: rs => if canonKeyDb r.1 = some k then some r.2 else firstValueFor rs k

/-! ## Input reconciliation (_curate_input) -/

def keyConversionErrorMsg : String := "Key conversion was not possible."

/-- The shortening loop: range(-1, -len(items), -1) tries the prefixes of
lengths len-1 down to 1, in that order, and stops at the first whose joined
key is in the reference table.  shortenLoop ref items m tries lengths m, m-1,
..., 1. -/
def shortenLoop (ref : List (List Char × Rat)) (items : List (List Char)) :
    Nat → Option (List Char)
  | 0 => none
  | l + 1 =>
    let cand := joinKey (items.take (l + 1))
    if (alookup ref cand).isSome then some cand else shortenLoop ref items l

/-- The per-taxon body of _curate_input: parse, fail on an empty rank
sequence, otherwise exact lookup, otherwise the shortening loop; ok none means
the taxon stays unmapped (grand-average fallback). -/
def resolveTaxon (ref : List (List Char × Rat)) (t : List Char) :
    Except String (Option (List Char)) :=
  let items := parseKeyItems true t
  if items.isEmpty then Except.error keyConversionErrorMsg
  else
    let full := joinKey items
    if (alookup ref full).isSome then Except.ok (some full)
    else Except.ok (shortenLoop ref items (items.length - 1))

/-- The loop of _curate_input over the index column, skipping already-mapped
raw strings. -/
def curateInputGo (ref : List (List Char × Rat)) :
    List (List Char × List Char) → List (List Char) → Except String (List (List Char × List Char))
  | m, [] => Except.ok m
  | m, t :: ts =>
    if (alookup m t).isSome then curateInputGo ref m ts
    else
      match resolveTaxon ref t with
      | Except.error e => Except.error e
      | Except.ok (some k) => curateInputGo ref (m ++ [(t, k)]) ts
      | Except.ok none => curateInputGo ref m ts

def curate_input (ref : List (List Char × Rat)) (idxs : List (List Char)) :
    Except String (List (List Char × List Char)) :=
  curateInputGo ref [] idxs

/-! ## Normalisation (normalise) -/

/-- grand_total: sum of the curated copy numbers over their count — the
arithmetic mean of the reference-table values. -/
def grandAverage (ref : List (List Char × Rat)) : Rat :=
  (ref.map Prod.snd).sum / (ref.length : Rat)

/-- The divisor for one row: the reference value of the mapped key when the
raw index is in the map (none models the KeyError were the mapped key absent
from the table), else the grand average. -/
def rowDivisorQ (ref : List (List Char × Rat)) (imap : List (List Char × List Char))
    (idx : List Char) : Option Rat :=
  match alookup imap idx with
  | some k => alookup ref k
  | none => some (grandAverage ref)

/-- count_df.iloc[i] /= divisor for one row. -/
def divideRow (ref : List (List Char × Rat)) (imap : List (List Char × List Char))
    (idx : List Char) (r : List Rat) : Option (List Rat) :=
  (rowDivisorQ ref imap idx).map (fun d => r.map (fun x => x / d))

/-- The sum of column j over all rows (absent cells of short rows count 0). -/
def colSum (rows : List (List Rat)) (j : Nat) : Rat :=
  (rows.map (fun r => r.getD j 0)).sum

def colSums (rows : List (List Rat)) (n : Nat) : List Rat :=
  (List.range n).map (fun j => colSum rows j)

def rescaleRow (sums : List Rat) (r : List Rat) : List Rat :=
  List.zipWith (fun a b => a / b) r sums

/-- count_df.div(count_df.sum(axis=0), axis=1): divide every cell by the sum
of its column, unconditionally. -/
def rescaleTable (rows : List (List Rat)) : List (List Rat) :=
  rows.map (fun r => rescaleRow (colSums rows r.length) r)

/-- The abundance table after the trailing passthrough column has been
separated: raw-index column, numeric rows, and the passthrough (OTU) column
that is reattached unchanged. -/
structure NormIn where
  idxs : List (List Char)
  rows : List (List Rat)
  otu : List (List Char)

/-- normalise: per-row division by the resolved divisor, then per-column
rescaling, with the passthrough column carried through; none models the
KeyError abort were a mapped key absent from the reference table. -/
def normalise (ref : List (List Char × Rat)) (imap : List (List Char × List Char))
    (inp : NormIn) : Option NormIn :=
  ((inp.idxs.zip inp.rows).mapM (fun p => divideRow ref imap p.1 p.2)).map
    (fun divided => NormIn.mk inp.idxs (rescaleTable divided) inp.otu)

/-- The run order of the program: _curate_input during construction, then
normalise; a reconciliation error aborts before any normalisation (and hence
before any output) happens. -/
def runPipeline (ref : List (List Char × Rat)) (inp : NormIn) :
    Except String (Option NormIn) :=
  match curate_input ref inp.idxs with
  | Except.error e => Except.error e
  | Except.ok m => Except.ok (normalise ref m inp)

/-! ## Concrete inputs used by witnesses and counterexamples -/

def keyA : List Char := "A".data
def keyAB : List Char := "A;B".data
def keyAspace : List Char := "A ".data
def sKA : List Char := "k__A;".data
def sKAspace : List Char := "k__A ;".data
def tKAB : List Char := "k__A;p__B;".data
def rawAB1 : List Char := "k__A;p__B;".data
def rawAB2 : List Char := "k__A;p__B;;".data
def lineAB3 : List Char := "k__A;p__B;\t3.0".data
def lineAB5 : List Char := "k__A;p__B;;\t5.0".data
def sKC : List Char := "k__A;c__C;".data
def sGarbled : List Char := "xyz".data
def refW : List (List Char × Rat) := [(keyA, 2)]
def recsW : List (List Char × Rat) := [(rawAB1, 3), (rawAB2, 5)]
def recsDupRaw : List (List Char × Rat) := [(rawAB1, 3), (rawAB1, 5)]

def inpW : NormIn := NormIn.mk [tKAB] [[10]] [[]]

def inpZero : NormIn := NormIn.mk [sKA, sKC] [[0], [0]] [[], []]

/-! ## Helper lemmas -/

@[simp]
theorem digitVal_zero : digitVal '0' = 0 := by decide

@[simp]
theorem digitVal_two : digitVal '2' = 2 := by decide

@[simp]
theorem digitVal_three : digitVal '3' = 3 := by decide

@[simp]
theorem digitVal_five : digitVal '5' = 5 := by decide

theorem alookup_append_some {α : Type} {d : List (List Char × α)} (e : List (List Char × α))
    {k : List Char} {v : α} (h : alookup d k = some v) : alookup (d ++ e) k = some v := by
  induction d with
  | nil => simp [alookup] at h
  | cons p rest ih =>
    by_cases hk : p.1 = k
    · simpa [alookup, hk] using h
    · rw [alookup] at h
      simp only [hk, if_false] at h
      simpa [alookup, hk] using ih h

theorem alookup_append_none {α : Type} {d : List (List Char × α)} (e : List (List Char × α))
    {k : List Char} (h : alookup d k = none) : alookup (d ++ e) k = alookup e k := by
  induction d with
  | nil => simp [alookup]
  | cons p rest ih =>
    by_cases hk : p.1 = k
    · simp [alookup, hk] at h
    · rw [alookup] at h
      simp only [hk, if_false] at h
      simpa [alookup, hk] using ih h

theorem alookup_eq_none_of_not_mem {α : Type} {d : List (List Char × α)} {k : List Char}
    (h : k ∉ d.map Prod.fst) : alookup d k = none := by
  induction d with
  | nil => rfl
  | cons p rest ih =>
    simp only [List.map_cons, List.mem_cons] at h
    push_neg at h
    rw [alookup, if_neg (fun hh => h.1 hh.symm)]
    exact ih h.2

theorem dropWhile_dropWhile (p : Char → Bool) (l : List Char) :
    (l.dropWhile p).dropWhile p = l.dropWhile p := by
  induction l with
  | nil => simp
  | cons a t ih =>
    by_cases h : p a <;> simp [List.dropWhile_cons, h, ih]

theorem rstripL_idem (l : List Char) : rstripL (rstripL l) = rstripL l := by
  simp [rstripL, dropWhile_dropWhile]

theorem joinKey_take_length_le (items : List (List Char)) (l : Nat) :
    (joinKey (items.take l)).length ≤ (joinKey items).length := by
  induction items generalizing l with
  | nil => simp
  | cons x rest ih =>
    cases l with
    | zero => simp [joinKey]
    | succ m =>
      cases rest with
      | nil =>
        cases m <;> simp [joinKey]
      | cons y rs =>
        cases m with
        | zero =>
          simp [joinKey, List.length_append]
        | succ m2 =>
          have h := ih (m2 + 1)
          simp only [List.take, joinKey, List.length_append, List.length_cons] at h ⊢
          omega

/-! ## Claim C5 helper lemmas -/

theorem parseLoop_length_le (strip : Bool) :
    ∀ (rs : List (Char × Bool)) (s : List Char) (i : Nat), i < rs.length →
      searchRule (rs.getD i defaultRule) s = none → (parseLoop strip rs s).length ≤ i := by
  intro rs
  induction rs with
  | nil => intro s i hi _; simp at hi
  | cons r rest ih =>
    intro s i hi hfail
    cases i with
    | zero =>
      rw [List.getD_cons_zero] at hfail
      simp [parseLoop, hfail]
    | succ j =>
      rw [List.getD_cons_succ] at hfail
      rw [parseLoop]
      cases hs : searchRule r s with
      | none => simp
      | some g =>
        simp only [List.length_cons]
        have := ih s j (by simpa using Nat.lt_of_succ_lt_succ hi) hfail
        omega

theorem parseLoop_getD (strip : Bool) :
    ∀ (rs : List (Char × Bool)) (s : List Char) (j : Nat),
      j < (parseLoop strip rs s).length →
      ∃ g, searchRule (rs.getD j defaultRule) s = some g ∧
        (parseLoop strip rs s).getD j [] = (if strip then rstripL g else g) := by
  intro rs
  induction rs with
  | nil => intro s j hj; simp [parseLoop] at hj
  | cons r rest ih =>
    intro s j hj
    rw [parseLoop] at hj ⊢
    cases hs : searchRule r s with
    | none => rw [hs] at hj; simp at hj
    | some g =>
      rw [hs] at hj
      cases j with
      | zero => exact ⟨g, by rw [List.getD_cons_zero]; exact hs, by simp⟩
      | succ i =>
        simp only [List.length_cons] at hj
        obtain ⟨g2, hg2, hv⟩ := ih s i (Nat.lt_of_succ_lt_succ hj)
        exact ⟨g2, by rw [List.getD_cons_succ]; exact hg2, by simpa using hv⟩

/-- C5: the Taxonomy Key Parser is prefix-monotonic.  The seven rank rules are
applied in kingdom-to-species order, and if the rule of rank i finds no match
then the extracted rank-label sequence has length at most i, so no later rank
contributes a label (whatever appears textually later in the string); moreover
every label in the result is the capture of its own rank rule, in order.  The
statement covers both parser variants (strip = true is _curate_input,
strip = false is _curate_db). -/
theorem taxonomy_parser_prefix_monotonic (strip : Bool) (s : List Char) (i : Nat)
    (hi : i < taxaRegExs.length)
    (hfail : searchRule (taxaRegExs.getD i defaultRule) s = none) :
    (parseKeyItems strip s).length ≤ i ∧
    ∀ j, j < (parseKeyItems strip s).length →
      ∃ g, searchRule (taxaRegExs.getD j defaultRule) s = some g ∧
        (parseKeyItems strip s).getD j [] = (if strip then rstripL g else g) :=
  ⟨parseLoop_length_le strip taxaRegExs s i hi hfail,
    fun j hj => parseLoop_getD strip taxaRegExs s j hj⟩

/-- C5 witness: on an annotation with a kingdom label, no phylum tag, but a
class tag further on, the phylum rule fails and the parse keeps only the
kingdom label. -/
theorem taxonomy_parser_prefix_monotonic_witness :
    (parseKeyItems true sKC).length ≤ 1 :=
  (taxonomy_parser_prefix_monotonic true sKC 1 (by decide) (by decide)).1

/-! ## Claim C6 -/

/-- C6 counterexample: rank labels are NOT whitespace-trimmed in the keys the
Reference Curator builds.  The db-side parser keeps the raw capture group, so
the annotation with a space before the semicolon yields the label with a
trailing space, and the two annotations differing only in that whitespace get
different canonical keys. -/
theorem rank_label_trimming_counterexample :
    parseKeyItems false sKAspace = [keyAspace] ∧
    canonKeyDb sKAspace = some keyAspace ∧
    canonKeyDb sKA = some keyA ∧
    keyAspace ≠ keyA ∧
    rstripL keyAspace ≠ keyAspace := by decide

theorem parseLoop_mem_rstrip :
    ∀ (rs : List (Char × Bool)) (s l : List Char),
      l ∈ parseLoop true rs s → ∃ g, l = rstripL g := by
  intro rs
  induction rs with
  | nil => intro s l h; simp [parseLoop] at h
  | cons r rest ih =>
    intro s l h
    rw [parseLoop] at h
    cases hs : searchRule r s with
    | none => rw [hs] at h; simp at h
    | some g =>
      rw [hs] at h
      simp only [if_true, List.mem_cons] at h
      rcases h with rfl | h2
      · exact ⟨g, rfl⟩
      · exact ih s l h2

/-- C6 amended: only the Input Reconciler trims its rank labels, and only of
trailing whitespace (str.rstrip); every label it produces is
right-strip-stable.  The Reference Curator stores the raw capture groups
untrimmed, so annotations differing only in whitespace around a label can
yield different canonical keys (see the counterexample). -/
theorem input_labels_rstripped (s l : List Char) (h : l ∈ parseKeyItems true s) :
    rstripL l = l := by
  obtain ⟨g, rfl⟩ := parseLoop_mem_rstrip taxaRegExs s l h
  exact rstripL_idem g

/-- C6 amended witness at a concrete annotation and label. -/
theorem input_labels_rstripped_witness : rstripL keyA = keyA :=
  input_labels_rstripped sKA keyA (by decide)

/-! ## Claim C2 -/

/-- C2: the divisor applied to a row is the reference value of the key the
ReconciliationMap records for the raw index when the map has an entry, and
otherwise the grand average, the arithmetic mean of all values stored in the
ReferenceTable. -/
theorem normaliser_divisor_choice (ref : List (List Char × Rat))
    (imap : List (List Char × List Char)) (idx : List Char) (r : List Rat) :
    grandAverage ref = (ref.map Prod.snd).sum / (ref.length : Rat) ∧
    (alookup imap idx = none →
      divideRow ref imap idx r = some (r.map (fun x => x / grandAverage ref))) ∧
    (∀ k, alookup imap idx = some k →
      divideRow ref imap idx r = (alookup ref k).map (fun d => r.map (fun x => x / d))) := by
  refine ⟨rfl, fun h => ?_, fun k h => ?_⟩
  · simp [divideRow, rowDivisorQ, h]
  · simp [divideRow, rowDivisorQ, h]

/-- C2 witness: a mapped row is divided by the reference value of its mapped
key (10 / 2 = 5). -/
theorem normaliser_divisor_choice_witness :
    divideRow refW [(tKAB, keyA)] tKAB [10] = some [5] := by
  have h := (normaliser_divisor_choice refW [(tKAB, keyA)] tKAB [10]).2.2 keyA rfl
  rw [h]
  norm_num [alookup, refW, keyA]

/-! ## Claim C1 helper lemmas -/

theorem shortenLoop_isSome_mem {ref : List (List Char × Rat)} {items : List (List Char)} :
    ∀ {m : Nat} {k : List Char}, shortenLoop ref items m = some k →
      (alookup ref k).isSome = true := by
  intro m
  induction m with
  | zero => intro k h; simp [shortenLoop] at h
  | succ l ih =>
    intro k h
    rw [shortenLoop] at h
    by_cases hc : (alookup ref (joinKey (items.take (l + 1)))).isSome
    · simp only [hc, if_true, Option.some.injEq] at h
      rw [← h]
      exact hc
    · simp only [hc, if_false] at h
      exact ih h

theorem shortenLoop_spec (ref : List (List Char × Rat)) (items : List (List Char)) :
    ∀ (m : Nat) (k : List Char), shortenLoop ref items m = some k →
      ∃ L, 1 ≤ L ∧ L ≤ m ∧ k = joinKey (items.take L) ∧
        (alookup ref k).isSome = true ∧
        ∀ l2, L < l2 → l2 ≤ m →
          (alookup ref (joinKey (items.take l2))).isSome = false := by
  intro m
  induction m with
  | zero => intro k h; simp [shortenLoop] at h
  | succ l ih =>
    intro k h
    rw [shortenLoop] at h
    by_cases hc : (alookup ref (joinKey (items.take (l + 1)))).isSome
    · simp only [hc, if_true, Option.some.injEq] at h
      refine ⟨l + 1, by omega, Nat.le_refl _, h.symm, by rw [← h]; exact hc, ?_⟩
      intro l2 h1 h2
      omega
    · simp only [hc, if_false] at h
      obtain ⟨L, hL1, hL2, hLk, hLmem, hnone⟩ := ih k h
      refine ⟨L, hL1, by omega, hLk, hLmem, ?_⟩
      intro l2 h1 h2
      rcases Nat.lt_or_ge l2 (l + 1) with hlt | hge
      · exact hnone l2 h1 (by omega)
      · have : l2 = l + 1 := by omega
        rw [this]
        exact Bool.not_eq_true _ ▸ hc

/-- C1: for a taxon whose full canonical key is absent from the reference
table, the outcome of the reconciler is exactly the shortening loop that tries
prefixes of the rank-label sequence from length n-1 down to 1 (one trailing
rank dropped at a time); any key that loop returns is the join of a prefix of
length between 1 and n-1, that key is present in the table, every strictly
longer tried prefix is absent (so the longest match wins), and the resulting
key is never longer than the full canonical key of the taxon itself. -/
theorem input_reconciler_shortening (ref : List (List Char × Rat)) (t : List Char)
    (hne : parseKeyItems true t ≠ [])
    (habs : alookup ref (joinKey (parseKeyItems true t)) = none) :
    resolveTaxon ref t =
      Except.ok (shortenLoop ref (parseKeyItems true t) ((parseKeyItems true t).length - 1)) ∧
    (∀ k, shortenLoop ref (parseKeyItems true t) ((parseKeyItems true t).length - 1) = some k →
      ∃ L, 1 ≤ L ∧ L ≤ (parseKeyItems true t).length - 1 ∧
        k = joinKey ((parseKeyItems true t).take L) ∧
        (alookup ref k).isSome = true ∧
        ∀ l2, L < l2 → l2 ≤ (parseKeyItems true t).length - 1 →
          (alookup ref (joinKey ((parseKeyItems true t).take l2))).isSome = false) ∧
    (∀ k, resolveTaxon ref t = Except.ok (some k) →
      k.length ≤ (joinKey (parseKeyItems true t)).length) := by
  have hie : (parseKeyItems true t).isEmpty = false := by
    simp [List.isEmpty_iff, hne]
  have h1 : resolveTaxon ref t =
      Except.ok (shortenLoop ref (parseKeyItems true t) ((parseKeyItems true t).length - 1)) := by
    rw [resolveTaxon]
    simp [hie, habs]
  refine ⟨h1, fun k hk => shortenLoop_spec ref (parseKeyItems true t) _ k hk, fun k hk => ?_⟩
  rw [h1] at hk
  have hk2 : shortenLoop ref (parseKeyItems true t) ((parseKeyItems true t).length - 1)
      = some k := Except.ok.inj hk
  obtain ⟨L, _, _, hLk, _, _⟩ := shortenLoop_spec ref (parseKeyItems true t) _ k hk2
  rw [hLk]
  exact joinKey_take_length_le (parseKeyItems true t) L

/-- C1 witness: with the reference table holding only the kingdom-level key,
the taxon with kingdom and phylum labels is shortened and the mapped key is at
most as long as its full canonical key. -/
theorem input_reconciler_shortening_witness :
    keyA.length ≤ (joinKey (parseKeyItems true tKAB)).length :=
  (input_reconciler_shortening refW tKAB (by decide) (by decide)).2.2 keyA rfl

/-! ## Claim C7 helper lemma -/

theorem curateInputGo_error (ref : List (List Char × Rat)) :
    ∀ (idxs : List (List Char)) (m : List (List Char × List Char)),
      (∀ t2 k, alookup m t2 = some k → parseKeyItems true t2 ≠ []) →
      (∃ t ∈ idxs, parseKeyItems true t = []) →
      curateInputGo ref m idxs = Except.error keyConversionErrorMsg := by
  intro idxs
  induction idxs with
  | nil =>
    rintro m hm ⟨t, ht, _⟩
    simp at ht
  | cons x xs ih =>
    rintro m hm ⟨t, ht, hempt⟩
    rw [curateInputGo]
    by_cases hx : (alookup m x).isSome
    · rw [if_pos hx]
      apply ih m hm
      rcases List.mem_cons.mp ht with rfl | h2
      · obtain ⟨k, hk⟩ := Option.isSome_iff_exists.mp hx
        exact absurd hempt (hm t k hk)
      · exact ⟨t, h2, hempt⟩
    · rw [if_neg hx]
      by_cases hpx : parseKeyItems true x = []
      · have hres : resolveTaxon ref x = Except.error keyConversionErrorMsg := by
          rw [resolveTaxon]
          simp [hpx]
        rw [hres]
      · have hie : (parseKeyItems true x).isEmpty = false := by
          simp [List.isEmpty_iff, hpx]
        have htx : t ∈ xs := by
          rcases List.mem_cons.mp ht with rfl | h2
          · exact absurd hempt hpx
          · exact h2
        by_cases hf : (alookup ref (joinKey (parseKeyItems true x))).isSome
        · have hres : resolveTaxon ref x = Except.ok (some (joinKey (parseKeyItems true x))) := by
            rw [resolveTaxon]
            simp [hie, hf]
          rw [hres]
          apply ih
          · intro t2 k hk
            by_cases hdm : alookup m t2 = none
            · rw [alookup_append_none _ hdm] at hk
              rw [alookup] at hk
              by_cases hxt : x = t2
              · rw [← hxt]; exact hpx
              · simp [hxt, alookup] at hk
            · obtain ⟨k0, hk0⟩ := Option.ne_none_iff_exists'.mp hdm
              exact hm t2 k0 hk0
          · exact ⟨t, htx, hempt⟩
        · have hres : resolveTaxon ref x =
              Except.ok (shortenLoop ref (parseKeyItems true x)
                ((parseKeyItems true x).length - 1)) := by
            rw [resolveTaxon]
            simp [hie, hf]
          rw [hres]
          cases hs : shortenLoop ref (parseKeyItems true x) ((parseKeyItems true x).length - 1) with
          | none => exact ih m hm ⟨t, htx, hempt⟩
          | some k =>
            apply ih
            · intro t2 k2 hk
              by_cases hdm : alookup m t2 = none
              · rw [alookup_append_none _ hdm] at hk
                rw [alookup] at hk
                by_cases hxt : x = t2
                · rw [← hxt]; exact hpx
                · simp [hxt, alookup] at hk
              · obtain ⟨k0, hk0⟩ := Option.ne_none_iff_exists'.mp hdm
                exact hm t2 k0 hk0
            · exact ⟨t, htx, hempt⟩

/-- C7: an input taxon whose annotation parses to an empty rank-label sequence
makes the whole reconciliation fail with the RuntimeError message, whatever
the other rows are; and since reconciliation runs before normalisation, the
pipeline aborts with that error and no output table is produced. -/
theorem unparseable_taxon_fatal (ref : List (List Char × Rat)) (inp : NormIn) (t : List Char)
    (ht : t ∈ inp.idxs) (hempty : parseKeyItems true t = []) :
    curate_input ref inp.idxs = Except.error keyConversionErrorMsg ∧
    runPipeline ref inp = Except.error keyConversionErrorMsg := by
  have h : curate_input ref inp.idxs = Except.error keyConversionErrorMsg := by
    apply curateInputGo_error ref inp.idxs []
    · intro t2 k hk
      simp [alookup] at hk
    · exact ⟨t, ht, hempty⟩
  refine ⟨h, ?_⟩
  rw [runPipeline, h]

/-- C7 witness: a garbled annotation with no kingdom match aborts the run. -/
theorem unparseable_taxon_fatal_witness :
    runPipeline refW (NormIn.mk [sGarbled] [[1]] [[]]) =
      Except.error keyConversionErrorMsg :=
  (unparseable_taxon_fatal refW (NormIn.mk [sGarbled] [[1]] [[]]) sGarbled
    (List.mem_singleton.mpr rfl) (by decide)).2

/-! ## Claim C10 helper lemmas -/

theorem resolveTaxon_ok_some_mem {ref : List (List Char × Rat)} {t k : List Char}
    (h : resolveTaxon ref t = Except.ok (some k)) : (alookup ref k).isSome = true := by
  rw [resolveTaxon] at h
  by_cases he : (parseKeyItems true t).isEmpty
  · rw [if_pos he] at h
    simp at h
  · rw [if_neg he] at h
    by_cases hf : (alookup ref (joinKey (parseKeyItems true t))).isSome
    · rw [if_pos hf] at h
      rw [← Option.some.inj (Except.ok.inj h)]
      exact hf
    · rw [if_neg hf] at h
      exact shortenLoop_isSome_mem (Except.ok.inj h)

theorem curateInputGo_preserves (ref : List (List Char × Rat)) :
    ∀ (idxs : List (List Char)) (m0 m : List (List Char × List Char)),
      (∀ t k, alookup m0 t = some k → (alookup ref k).isSome = true) →
      curateInputGo ref m0 idxs = Except.ok m →
      (∀ t k, alookup m t = some k → (alookup ref k).isSome = true) := by
  intro idxs
  induction idxs with
  | nil =>
    intro m0 m hm0 h
    rw [curateInputGo] at h
    rw [← Except.ok.inj h]
    exact hm0
  | cons x xs ih =>
    intro m0 m hm0 h
    rw [curateInputGo] at h
    by_cases hx : (alookup m0 x).isSome
    · rw [if_pos hx] at h
      exact ih m0 m hm0 h
    · rw [if_neg hx] at h
      cases hr : resolveTaxon ref x with
      | error e => rw [hr] at h; simp at h
      | ok o =>
        rw [hr] at h
        cases o with
        | none => exact ih m0 m hm0 h
        | some k0 =>
          apply ih (m0 ++ [(x, k0)]) m _ h
          intro t k hk
          by_cases hdm : alookup m0 t = none
          · rw [alookup_append_none _ hdm] at hk
            rw [alookup] at hk
            by_cases hxt : x = t
            · simp only [hxt, if_true, Option.some.injEq] at hk
              rw [← hk]
              exact resolveTaxon_ok_some_mem hr
            · simp [hxt, alookup] at hk
          · obtain ⟨k1, hk1⟩ := Option.ne_none_iff_exists'.mp hdm
            rw [alookup_append_some _ hk1] at hk
            rw [← Option.some.inj hk]
            exact hm0 t k1 hk1

/-- C10: every key the ReconciliationMap stores is a key of the
ReferenceTable (only exact or successfully shortened keys are ever recorded),
so the per-row divisor lookup of the Normalizer succeeds for every row, mapped
or not. -/
theorem reconciliation_map_keys_in_ref (ref : List (List Char × Rat))
    (idxs : List (List Char)) (m : List (List Char × List Char))
    (h : curate_input ref idxs = Except.ok m) :
    (∀ t k, alookup m t = some k → (alookup ref k).isSome = true) ∧
    (∀ idx r, (divideRow ref m idx r).isSome = true) := by
  have h1 := curateInputGo_preserves ref idxs [] m
    (by intro t k hk; simp [alookup] at hk) h
  refine ⟨h1, fun idx r => ?_⟩
  rw [divideRow, rowDivisorQ]
  cases hm : alookup m idx with
  | none => simp
  | some k =>
    obtain ⟨v, hv⟩ := Option.isSome_iff_exists.mp (h1 idx k hm)
    simp [hv]

/-- C10 witness: after reconciling the shortened taxon, its mapped key is a
reference-table key. -/
theorem reconciliation_map_keys_in_ref_witness :
    (alookup refW keyA).isSome = true :=
  (reconciliation_map_keys_in_ref refW [tKAB] [(tKAB, keyA)] rfl).1 tKAB keyA rfl

/-! ## Claim C3 helper lemmas -/

theorem dbStep_none {st : DbResult} {rec : List Char × Rat} (h : canonKeyDb rec.1 = none) :
    dbStep st rec = st := by
  rw [dbStep, h]

theorem dbStep_some {st : DbResult} {rec : List Char × Rat} {k : List Char}
    (h : canonKeyDb rec.1 = some k) : dbStep st rec = dbStepKey st k rec.2 := by
  rw [dbStep, h]

theorem dictInsert_of_none {d : List (List Char × Rat)} {k : List Char} (v : Rat)
    (h : alookup d k = none) : dictInsert d k v = d ++ [(k, v)] := by
  rw [dictInsert, h]
  simp

theorem buildRawDictGo_nodup :
    ∀ (recs d : List (List Char × Rat)),
      ((d.map Prod.fst) ++ (recs.map Prod.fst)).Nodup → buildRawDictGo d recs = d ++ recs := by
  intro recs
  induction recs with
  | nil => intro d _; simp [buildRawDictGo]
  | cons r rs ih =>
    rcases r with ⟨rk, rv⟩
    intro d h
    rw [buildRawDictGo]
    have hdis : List.Disjoint (d.map Prod.fst) (((rk, rv) :: rs).map Prod.fst) :=
      (List.nodup_append.mp h).2.2
    have hnotin : rk ∉ d.map Prod.fst := by
      intro hin
      exact hdis hin (by simp)
    rw [dictInsert_of_none rv (alookup_eq_none_of_not_mem hnotin)]
    have h2 : (((d ++ [(rk, rv)]).map Prod.fst) ++ rs.map Prod.fst).Nodup := by
      simp only [List.map_append, List.map_cons, List.map_nil]
      rw [← List.append_cons]
      simpa using h
    rw [ih (d ++ [(rk, rv)]) h2]
    exact (List.append_cons d (rk, rv) rs).symm

theorem curateDbGo_lookup_some :
    ∀ (recs : List (List Char × Rat)) (st : DbResult) (k : List Char) (v : Rat),
      alookup st.table k = some v → alookup (curateDbGo st recs).table k = some v := by
  intro recs
  induction recs with
  | nil => intro st k v h; exact h
  | cons r rs ih =>
    intro st k v h
    rw [curateDbGo]
    apply ih
    cases hc : canonKeyDb r.1 with
    | none => rw [dbStep_none hc]; exact h
    | some k2 =>
      rw [dbStep_some hc, dbStepKey]
      by_cases hi : (alookup st.table k2).isSome
      · rw [if_pos hi]
        exact h
      · rw [if_neg hi]
        show alookup (st.table ++ [(k2, r.2)]) k = some v
        exact alookup_append_some _ h

theorem curateDbGo_lookup_none :
    ∀ (recs : List (List Char × Rat)) (st : DbResult) (k : List Char),
      alookup st.table k = none →
      alookup (curateDbGo st recs).table k = firstValueFor recs k := by
  intro recs
  induction recs with
  | nil => intro st k h; rw [curateDbGo, firstValueFor]; exact h
  | cons r rs ih =>
    intro st k h
    rw [curateDbGo, firstValueFor]
    cases hc : canonKeyDb r.1 with
    | none =>
      rw [dbStep_none hc, if_neg (by simp)]
      exact ih st k h
    | some k2 =>
      rw [dbStep_some hc, dbStepKey]
      by_cases hk2 : k2 = k
      · subst hk2
        rw [if_neg (by rw [h]; simp), if_pos rfl]
        apply curateDbGo_lookup_some
        show alookup (st.table ++ [(k2, r.2)]) k2 = some r.2
        rw [alookup_append_none _ h, alookup]
        simp
      · rw [if_neg (fun hh => hk2 (Option.some.inj hh))]
        by_cases hi : (alookup st.table k2).isSome
        · rw [if_pos hi]
          exact ih _ k h
        · rw [if_neg hi]
          apply ih
          show alookup (st.table ++ [(k2, r.2)]) k = none
          rw [alookup_append_none _ h, alookup]
          simp [hk2, alookup]

/-- C3 counterexample: two reference records with the SAME raw taxonomy
string (values 3 then 5) canonicalise to the same key, yet the curated table
keeps the LAST value, 5, not the first: the raw-string dict built by
_curate_db overwrites on identical raw strings before canonical first-seen
dedup ever runs.  The claim, which covers duplicates with identical raw
strings, is therefore false. -/
theorem reference_curator_first_seen_counterexample :
    alookup (curate_db_records recsDupRaw).table keyAB = some 5 ∧
    alookup (curate_db_records recsDupRaw).table keyAB ≠ some 3 := by
  have h : alookup (curate_db_records recsDupRaw).table keyAB = some 5 := rfl
  refine ⟨h, ?_⟩
  rw [h]
  intro hc
  have h2 := Option.some.inj hc
  norm_num at h2

/-- C3 amended: first-seen-wins holds provided the raw taxonomy strings of
the records are pairwise distinct: then, for every canonical key, the curated
table stores exactly the value of the first record (in file order) that
canonicalises to it, irrespective of how many later duplicates with other raw
spellings appear and in what order.  (A later record whose raw string is
identical to an earlier one instead overwrites that value — the
counterexample.) -/
theorem reference_curator_first_seen_distinct_raw (recs : List (List Char × Rat))
    (h : (recs.map Prod.fst).Nodup) (k : List Char) :
    alookup (curate_db_records recs).table k = firstValueFor recs k := by
  rw [curate_db_records, buildRawDictGo_nodup recs [] (by simpa using h), List.nil_append]
  exact curateDbGo_lookup_none recs (DbResult.mk [] [] 0) k rfl

/-- C3 amended witness: two distinct raw spellings of the same canonical key
keep the first value. -/
theorem reference_curator_first_seen_distinct_raw_witness :
    alookup (curate_db_records recsW).table keyAB = firstValueFor recsW keyAB :=
  reference_curator_first_seen_distinct_raw recsW (by decide) keyAB

/-! ## Claim C4 -/

/-- C4 counterexample: a reference file with exactly two record lines that
produce the same canonical key, with values 3.0 and 5.0 in that order (and
distinct raw spellings), does give table entry 3.0 — but the per-key count
the curator reports for that key is 2, not 1, because the
defaultdict(lambda : 1) starts the counter at 1 and the first duplicate bumps
it to 2. -/
theorem duplicate_scenario_counterexample :
    (curate_db_lines [lineAB3, lineAB5]).map (fun r => alookup r.dups keyAB) = some (some 2) ∧
    some (2 : Nat) ≠ some 1 ∧
    (curate_db_lines [lineAB3, lineAB5]).map (fun r => alookup r.table keyAB) = some (some 3) := by
  refine ⟨?_, by decide, ?_⟩ <;>
    norm_num +decide [curate_db_lines, recordOfLine, parseFloat, parseFloatCore, digitsVal,
      List.foldl, splitTab, rstripL, isSpaceChar, isWordChar, isWordSpace, lookaheadSemi,
      List.mapM, List.mapM.loop, Option.bind, curate_db_records, buildRawDictGo, dictInsert,
      alookup, curateDbGo, dbStep, canonKeyDb, parseKeyItems, parseLoop, searchRule, searchTag,
      tryMatch, joinKey, bumpDup, lineAB3, lineAB5, keyAB]

/-- C4 amended: on that two-line reference file the curated entry for the
shared key is 3.0 (first seen, raw spellings distinct) and the per-key figure
reported for it is 2 — the report counts occurrences of the key including the
first, not just the duplicates. -/
theorem duplicate_scenario_amended :
    (curate_db_lines [lineAB3, lineAB5]).map
      (fun r => (alookup r.table keyAB, alookup r.dups keyAB)) = some (some 3, some 2) := by
  norm_num +decide [curate_db_lines, recordOfLine, parseFloat, parseFloatCore, digitsVal,
    List.foldl, splitTab, rstripL, isSpaceChar, isWordChar, isWordSpace, lookaheadSemi,
    List.mapM, List.mapM.loop, Option.bind, curate_db_records, buildRawDictGo, dictInsert,
    alookup, curateDbGo, dbStep, canonKeyDb, parseKeyItems, parseLoop, searchRule, searchTag,
    tryMatch, joinKey, bumpDup, lineAB3, lineAB5, keyAB]

/-! ## Claim C8 -/

/-- C8 counterexample: on a one-column table whose rows are all zero, the
post-division column sum is zero, yet the Normalizer returns an ordinary
output table — nothing is detected or reported; the cells of the zero-sum
column are the raw division-by-zero results (NaN in pandas, 0 under the Rat
convention), silently emitted. -/
theorem zero_column_sum_counterexample :
    colSum [[(0 : Rat)], [0]] 0 = 0 ∧
    normalise refW [] inpZero = some (NormIn.mk [sKA, sKC] [[0], [0]] [[], []]) := by
  constructor
  · norm_num [colSum]
  · norm_num +decide [normalise, divideRow, rowDivisorQ, alookup, grandAverage,
      List.mapM, List.mapM.loop, Option.bind, refW, inpZero, sKA, sKC, keyA, rescaleTable,
      rescaleRow, colSums, colSum, List.range_succ]

/-- C8 amended: the Normalizer applies the per-column rescale unconditionally.
Whenever the per-row divisions succeed it returns the rescaled table, with no
detection, flagging or reporting of columns whose post-division sum is zero:
their division-by-zero cells are silently propagated into the output. -/
theorem zero_column_not_detected (ref : List (List Char × Rat))
    (imap : List (List Char × List Char)) (inp : NormIn) (divided : List (List Rat)) (j : Nat)
    (hdiv : (inp.idxs.zip inp.rows).mapM (fun p => divideRow ref imap p.1 p.2) = some divided)
    (hzero : colSum divided j = 0) :
    normalise ref imap inp = some (NormIn.mk inp.idxs (rescaleTable divided) inp.otu) := by
  rw [normalise, hdiv]
  rfl

/-- C8 amended witness: the all-zero one-column table divides cleanly, its
column sum is zero, and normalise still returns a plain output. -/
theorem zero_column_not_detected_witness :
    normalise refW [] inpZero =
      some (NormIn.mk [sKA, sKC] (rescaleTable [[0], [0]]) [[], []]) := by
  refine zero_column_not_detected refW [] inpZero [[0], [0]] 0 ?_ ?_
  · norm_num +decide [inpZero, divideRow, rowDivisorQ, alookup, grandAverage, refW, keyA,
      sKA, sKC, List.mapM, List.mapM.loop, Option.bind]
  · norm_num [colSum]

/-! ## Claim C9 helper lemmas -/

theorem sum_map_div {α : Type} (l : List α) (g : α → Rat) (d : Rat) :
    (l.map (fun x => g x / d)).sum = (l.map g).sum / d := by
  induction l with
  | nil => simp
  | cons a t ih => simp [ih, add_div]

theorem rescaleRow_getD (rows : List (List Rat)) {n j : Nat} {r : List Rat}
    (hr : r.length = n) (hj : j < n) :
    (rescaleRow (colSums rows n) r).getD j 0 = r.getD j 0 / colSum rows j := by
  have hcs : (colSums rows n).length = n := by simp [colSums]
  have hlen : (rescaleRow (colSums rows n) r).length = n := by
    simp [rescaleRow, hr, hcs]
  have hjr : j < r.length := by omega
  have hjz : j < (rescaleRow (colSums rows n) r).length := by omega
  rw [List.getD_eq_getElem _ _ hjz, List.getD_eq_getElem _ _ hjr]
  simp [rescaleRow, List.getElem_zipWith, colSums]

theorem colSum_rescaleTable (rows : List (List Rat)) (n j : Nat)
    (hrect : ∀ r ∈ rows, r.length = n) (hj : j < n) (hS : colSum rows j ≠ 0) :
    colSum (rescaleTable rows) j = 1 := by
  have h1 : colSum (rescaleTable rows) j
      = (rows.map (fun r => r.getD j 0 / colSum rows j)).sum := by
    rw [colSum, rescaleTable, List.map_map]
    congr 1
    apply List.map_congr_left
    intro r hr
    have hlr := hrect r hr
    show (rescaleRow (colSums rows r.length) r).getD j 0 = r.getD j 0 / colSum rows j
    rw [hlr]
    exact rescaleRow_getD rows hlr hj
  rw [h1, sum_map_div]
  rw [show (rows.map fun r => r.getD j 0).sum = colSum rows j from rfl]
  exact div_self hS

/-- C9: every numeric output column of the Normalizer (the passthrough column
is carried separately) sums to 1 whenever the post-division, pre-rescale
sum of that column is nonzero; exact over the rationals, which is the
within-floating-tolerance statement of the spec. -/
theorem normaliser_columns_sum_to_one (ref : List (List Char × Rat))
    (imap : List (List Char × List Char)) (inp out : NormIn) (divided : List (List Rat))
    (n j : Nat)
    (hdiv : (inp.idxs.zip inp.rows).mapM (fun p => divideRow ref imap p.1 p.2) = some divided)
    (hout : normalise ref imap inp = some out)
    (hrect : ∀ r ∈ divided, r.length = n) (hj : j < n) (hS : colSum divided j ≠ 0) :
    colSum out.rows j = 1 := by
  rw [normalise, hdiv] at hout
  have hout2 : NormIn.mk inp.idxs (rescaleTable divided) inp.otu = out := by
    simpa using hout
  rw [← hout2]
  exact colSum_rescaleTable divided n j hrect hj hS

/-- C9 witness: the one-sample table with count 10 and divisor 2 divides to 5
and rescales to a column summing to 1. -/
theorem normaliser_columns_sum_to_one_witness :
    colSum (NormIn.mk [tKAB] (rescaleTable [[5]]) [[]]).rows 0 = 1 := by
  apply normaliser_columns_sum_to_one refW [(tKAB, keyA)] inpW
    (NormIn.mk [tKAB] (rescaleTable [[5]]) [[]]) [[5]] 1 0
  · norm_num +decide [inpW, divideRow, rowDivisorQ, alookup, refW, tKAB, keyA,
      List.mapM, List.mapM.loop, Option.bind]
  · norm_num +decide [normalise, inpW, divideRow, rowDivisorQ, alookup, refW, tKAB, keyA,
      List.mapM, List.mapM.loop, Option.bind, rescaleTable, rescaleRow, colSums, colSum,
      List.range_succ]
  · intro r hr
    rw [List.mem_singleton] at hr
    rw [hr]
    rfl
  · decide
  · norm_num [colSum]

end RrnaNorm
